import Mathlib

/-
Verification of the conversation-orchestration engine of the reachy-mini-mcp
repository: a shallow embedding of the tool-calling turn loop, tool-call
extraction, argument normalization, message-history sanitization and the
streaming quote/action segment parser, together with theorems about them.

The embedding mirrors, in particular:
  chat_app.py          _fix_double_encoded_params, _parse_tool_call_from_content,
                       _clean_tool_arguments, execute_tool_via_mcp,
                       _prepare_messages_for_api, process_message
  conversation_app.py  parse_token
Python json.loads / json.dumps are modelled by an executable JSON parser
(jsonParse) and serializer (jsonDump) over an inductive JSON value type.
-/

namespace ReachyChat

/- JSON values as produced by json.loads.  Numbers keep their source lexeme
(the repository never does arithmetic on parsed numbers, only structural
moves), objects are insertion-ordered key/value sequences as in a Python
dict, with duplicate keys collapsed at parse time the way dict insertion
does (first position, last value). -/
mutual
inductive Json where
  | null : Json
  | bool (b : Bool) : Json
  | num (lexeme : String) : Json
  | str (s : String) : Json
  | arr (items : JsonList) : Json
  | obj (members : JsonObj) : Json
deriving DecidableEq, Repr

inductive JsonList where
  | nil : JsonList
  | cons (hd : Json) (tl : JsonList) : JsonList
deriving DecidableEq, Repr

inductive JsonObj where
  | nil : JsonObj
  | cons (key : String) (val : Json) (tl : JsonObj) : JsonObj
deriving DecidableEq, Repr
end

def isJsonWs (c : Char) : Bool :=
  c = ' ' || c = '\t' || c = '\n' || c = '\r'

def skipWs : List Char → List Char
  | [] => []
  | c :: rest => if isJsonWs c then skipWs rest else c :: rest

def hexDigitVal (c : Char) : Option Nat :=
  if '0' ≤ c ∧ c ≤ '9' then some (c.toNat - '0'.toNat)
  else if 'a' ≤ c ∧ c ≤ 'f' then some (c.toNat - 'a'.toNat + 10)
  else if 'A' ≤ c ∧ c ≤ 'F' then some (c.toNat - 'A'.toNat + 10)
  else none

def escDecode (c : Char) : Option Char :=
  if c = '"' then some '"'
  else if c = '\\' then some '\\'
  else if c = '/' then some '/'
  else if c = 'b' then some (Char.ofNat 8)
  else if c = 'f' then some (Char.ofNat 12)
  else if c = 'n' then some '\n'
  else if c = 'r' then some '\r'
  else if c = 't' then some '\t'
  else none

/-- Body of a double-quoted JSON string (after the opening quote): returns the
decoded characters and the input remaining after the closing quote. -/
def parseStrBody : List Char → Option (List Char × List Char)
  | [] => none
  | '"' :: rest => some ([], rest)
  | '\\' :: 'u' :: h1 :: h2 :: h3 :: h4 :: rest =>
    match hexDigitVal h1, hexDigitVal h2, hexDigitVal h3, hexDigitVal h4 with
    | some a, some b, some c, some d =>
      match parseStrBody rest with
      | some (body, rem) => some (Char.ofNat (((a * 16 + b) * 16 + c) * 16 + d) :: body, rem)
      | none => none
    | _, _, _, _ => none
  | '\\' :: e :: rest =>
    match escDecode e with
    | some c =>
      match parseStrBody rest with
      | some (body, rem) => some (c :: body, rem)
      | none => none
    | none => none
  | c :: rest =>
    if c.toNat < 32 then none
    else
      match parseStrBody rest with
      | some (body, rem) => some (c :: body, rem)
      | none => none

def takeDigits : List Char → List Char × List Char
  | [] => ([], [])
  | c :: rest =>
    if c.isDigit then
      let (ds, rem) := takeDigits rest
      (c :: ds, rem)
    else ([], c :: rest)

/-- A JSON number lexeme: optional minus, integer part without a leading zero,
optional fraction, optional exponent. -/
def parseNumLex (cs : List Char) : Option (List Char × List Char) :=
  let (sign, cs1) :=
    match cs with
    | '-' :: rest => (['-'], rest)
    | _ => ([], cs)
  let (intPart, cs2) := takeDigits cs1
  if intPart = [] then none
  else if intPart.length > 1 ∧ intPart.headD '0' = '0' then none
  else
    let (fracPart, cs3) :=
      match cs2 with
      | '.' :: rest =>
        let (ds, rem) := takeDigits rest
        if ds = [] then ([], cs2) else ('.' :: ds, rem)
      | _ => ([], cs2)
    if cs3 ≠ cs2 ∨ fracPart = [] then
      let (expPart, cs4) :=
        match cs3 with
        | 'e' :: '+' :: rest =>
          let (ds, rem) := takeDigits rest
          if ds = [] then ([], cs3) else ('e' :: '+' :: ds, rem)
        | 'e' :: '-' :: rest =>
          let (ds, rem) := takeDigits rest
          if ds = [] then ([], cs3) else ('e' :: '-' :: ds, rem)
        | 'e' :: rest =>
          let (ds, rem) := takeDigits rest
          if ds = [] then ([], cs3) else ('e' :: ds, rem)
        | 'E' :: '+' :: rest =>
          let (ds, rem) := takeDigits rest
          if ds = [] then ([], cs3) else ('E' :: '+' :: ds, rem)
        | 'E' :: '-' :: rest =>
          let (ds, rem) := takeDigits rest
          if ds = [] then ([], cs3) else ('E' :: '-' :: ds, rem)
        | 'E' :: rest =>
          let (ds, rem) := takeDigits rest
          if ds = [] then ([], cs3) else ('E' :: ds, rem)
        | _ => ([], cs3)
      some (sign ++ intPart ++ fracPart ++ expPart, cs4)
    else none

/-- Insertion into a JSON object with Python-dict semantics: an existing key
keeps its position and receives the new value, a new key is appended. -/
def objInsert : JsonObj → String → Json → JsonObj
  | JsonObj.nil, k, v => JsonObj.cons k v JsonObj.nil
  | JsonObj.cons k' v' tl, k, v =>
    if k' = k then JsonObj.cons k' v tl
    else JsonObj.cons k' v' (objInsert tl k v)

/- Fuel-indexed recursive-descent JSON value parser.  parseMembers parses the
members of an object after the opening brace (given a non-empty body),
parseItems parses the items of an array after the opening bracket. -/
mutual
def parseVal : Nat → List Char → Option (Json × List Char)
  | 0, _ => none
  | fuel + 1, cs =>
    match skipWs cs with
    | 'n' :: 'u' :: 'l' :: 'l' :: rest => some (Json.null, rest)
    | 't' :: 'r' :: 'u' :: 'e' :: rest => some (Json.bool true, rest)
    | 'f' :: 'a' :: 'l' :: 's' :: 'e' :: rest => some (Json.bool false, rest)
    | '"' :: rest =>
      match parseStrBody rest with
      | some (body, rem) => some (Json.str (String.mk body), rem)
      | none => none
    | '\x7b' :: rest =>
      match skipWs rest with
      | '\x7d' :: rem => some (Json.obj JsonObj.nil, rem)
      | cs2 => parseMembers fuel JsonObj.nil cs2
    | '[' :: rest =>
      match skipWs rest with
      | ']' :: rem => some (Json.arr JsonList.nil, rem)
      | cs2 =>
        match parseItems fuel cs2 with
        | some (items, rem) => some (Json.arr items, rem)
        | none => none
    | cs1 =>
      match parseNumLex cs1 with
      | some (lex, rem) => some (Json.num (String.mk lex), rem)
      | none => none

def parseMembers : Nat → JsonObj → List Char → Option (Json × List Char)
  | 0, _, _ => none
  | fuel + 1, acc, cs =>
    match skipWs cs with
    | '"' :: rest =>
      match parseStrBody rest with
      | some (keyChars, afterKey) =>
        match skipWs afterKey with
        | ':' :: afterColon =>
          match parseVal fuel afterColon with
          | some (v, afterVal) =>
            let acc2 := objInsert acc (String.mk keyChars) v
            match skipWs afterVal with
            | ',' :: afterComma => parseMembers fuel acc2 afterComma
            | '\x7d' :: rem => some (Json.obj acc2, rem)
            | _ => none
          | none => none
        | _ => none
      | none => none
    | _ => none

def parseItems : Nat → List Char → Option (JsonList × List Char)
  | 0, _ => none
  | fuel + 1, cs =>
    match parseVal fuel cs with
    | some (v, afterVal) =>
      match skipWs afterVal with
      | ',' :: afterComma =>
        match parseItems fuel afterComma with
        | some (items, rem) => some (JsonList.cons v items, rem)
        | none => none
      | ']' :: rem => some (JsonList.cons v JsonList.nil, rem)
      | _ => none
    | none => none
end

/-- Model of Python json.loads: parse one JSON value and require that only
whitespace remains; any failure is a JSONDecodeError, modelled as none. -/
def jsonParse (s : String) : Option Json :=
  match parseVal (2 * s.data.length + 2) s.data with
  | some (v, rem) => if skipWs rem = [] then some v else none
  | none => none

def escString : List Char → String
  | [] => ""
  | c :: rest =>
    (if c = '"' then "\\\""
     else if c = '\\' then "\\\\"
     else if c = '\n' then "\\n"
     else if c = '\t' then "\\t"
     else if c = '\r' then "\\r"
     else if c = Char.ofNat 8 then "\\b"
     else if c = Char.ofNat 12 then "\\f"
     else String.singleton c) ++ escString rest

/- Model of Python json.dumps with its default separators. -/
mutual
def jsonDump : Json → String
  | Json.null => "null"
  | Json.bool b => if b then "true" else "false"
  | Json.num lexeme => lexeme
  | Json.str s => "\"" ++ escString s.data ++ "\""
  | Json.arr items => "[" ++ dumpItems items ++ "]"
  | Json.obj members => "\x7b" ++ dumpMembers members ++ "\x7d"

def dumpItems : JsonList → String
  | JsonList.nil => ""
  | JsonList.cons hd JsonList.nil => jsonDump hd
  | JsonList.cons hd tl => jsonDump hd ++ ", " ++ dumpItems tl

def dumpMembers : JsonObj → String
  | JsonObj.nil => ""
  | JsonObj.cons k v JsonObj.nil => "\"" ++ escString k.data ++ "\": " ++ jsonDump v
  | JsonObj.cons k v tl =>
    "\"" ++ escString k.data ++ "\": " ++ jsonDump v ++ ", " ++ dumpMembers tl
end

def isPyWs (c : Char) : Bool :=
  c = ' ' || c = '\t' || c = '\n' || c = '\r' || c = Char.ofNat 11 || c = Char.ofNat 12

/-- Python str.strip(): remove leading and trailing whitespace. -/
def pyStrip (s : String) : String :=
  String.mk (((s.data.dropWhile isPyWs).reverse.dropWhile isPyWs).reverse)

def charFindAux (c : Char) : List Char → Nat → Option Nat
  | [], _ => none
  | x :: rest, i => if x = c then some i else charFindAux c rest (i + 1)

/-- Python str.find for a single character (index of first occurrence). -/
def pyFind (s : String) (c : Char) : Option Nat :=
  charFindAux c s.data 0

/-- Python str.rfind for a single character (index of last occurrence). -/
def pyRFind (s : String) (c : Char) : Option Nat :=
  match charFindAux c s.data.reverse 0 with
  | some i => some (s.data.length - 1 - i)
  | none => none

def objGet : JsonObj → String → Option Json
  | JsonObj.nil, _ => none
  | JsonObj.cons k v tl, key => if k = key then some v else objGet tl key

/-- chat_app.py _clean_tool_arguments: the literal-repair pass over a tool
argument dictionary.  String "null"/"None" values are omitted entirely,
string "true"/"false" become booleans, everything else passes through. -/
def cleanToolArguments : JsonObj → JsonObj
  | JsonObj.nil => JsonObj.nil
  | JsonObj.cons k v tl =>
    if v = Json.str ("null") ∨ v = Json.str ("None") then cleanToolArguments tl
    else if v = Json.str ("true") then JsonObj.cons k (Json.bool true) (cleanToolArguments tl)
    else if v = Json.str ("false") then JsonObj.cons k (Json.bool false) (cleanToolArguments tl)
    else JsonObj.cons k v (cleanToolArguments tl)

/-- The stripped value starts with a bracket and ends with the matching one
(the guard that _fix_double_encoded_params places before trying json.loads). -/
def strBracketed (s : String) : Bool :=
  let t := (pyStrip s).data
  match t with
  | [] => false
  | c :: _ =>
    (c = '[' && t.getLast? = some ']') || (c = '\x7b' && t.getLast? = some '\x7d')

/- chat_app.py _fix_double_encoded_params: the double-encoding-repair pass.
A string value that looks like a JSON array/object literal is replaced by its
parse when json.loads succeeds (without further repair of the parsed value);
a dict value is repaired recursively; everything else passes through.
Non-dict input is returned unchanged. -/
mutual
def fixDoubleEncodedParams : Json → Json
  | Json.obj members => Json.obj (fixMembers members)
  | j => j

def fixMembers : JsonObj → JsonObj
  | JsonObj.nil => JsonObj.nil
  | JsonObj.cons k v tl =>
    let v2 :=
      match v with
      | Json.str s =>
        if strBracketed s then
          match jsonParse s with
          | some parsed => parsed
          | none => Json.str s
        else Json.str s
      | Json.obj inner => Json.obj (fixMembers inner)
      | other => other
    JsonObj.cons k v2 (fixMembers tl)
end

/-- A tool call recovered from free-text content: chat_app.py returns a dict
with the validated name and the (double-encoding-repaired) parameter bag. -/
structure ParsedCall where
  name : String
  arguments : Json
deriving DecidableEq, Repr

/-- The slice of content from its first brace to its last closing brace
(chat_app.py lines 277-287); none when either marker is missing or they are
out of order. -/
def extractJsonSlice (content : String) : Option String :=
  match pyFind content '\x7b', pyRFind content '\x7d' with
  | some si, some ei =>
    if ei < si then none
    else some (String.mk ((content.data.drop si).take (ei + 1 - si)))
  | _, _ => none

/-- chat_app.py _parse_tool_call_from_content: recover a tool call from raw
assistant content.  The brace-delimited slice is parsed as JSON, with one
retry after appending a single closing brace; the parse must be an object
with a "name" key whose value is one of the known tool names; its
"parameters" value (default the empty object) is double-encoding-repaired.
Every failure path yields none. -/
def parseToolCallFromContent (knownTools : List String) (content : String) : Option ParsedCall :=
  if content = "" ∨ pyStrip content = "" then none
  else
    match extractJsonSlice content with
    | none => none
    | some jsonStr =>
      let firstTry :=
        match jsonParse jsonStr with
        | some p => some p
        | none => jsonParse (jsonStr ++ "\x7d")
      match firstTry with
      | some (Json.obj members) =>
        match objGet members ("name") with
        | some nameVal =>
          let params := fixDoubleEncodedParams ((objGet members ("parameters")).getD (Json.obj JsonObj.nil))
          match nameVal with
          | Json.str funcName =>
            if funcName ∈ knownTools then some ⟨funcName, params⟩ else none
          | _ => none
        | none => none
      | some _ => none
      | none => none

/-- Message roles.  Roles other than the four standard ones flow through the
sanitizer's catch-all branch, so they are kept representable. -/
inductive Role where
  | system : Role
  | user : Role
  | assistant : Role
  | tool : Role
  | other (tag : String) : Role
deriving DecidableEq, Repr

/-- One entry of an assistant message's tool_calls list.  arguments is the
function.arguments field: OpenAI-style responses carry a JSON string, the
synthesized fallback path stores json.dumps of the parameter dict, and some
backends return a dict directly, so it is kept as a Json value. -/
structure ToolCall where
  id : String
  name : String
  arguments : Json
deriving DecidableEq, Repr

/-- A conversation message (a Python dict with optional keys; none models an
absent key, and a tool_calls key holding null is merged into none since both
are falsy and deleted in the same places). -/
structure Msg where
  role : Role
  content : Option String := none
  toolCalls : Option (List ToolCall) := none
  toolCallId : Option String := none
  name : Option String := none
deriving DecidableEq, Repr

instance : Inhabited Msg := ⟨{ role := Role.system }⟩

/-- Python truthiness of msg.get("tool_calls"): a non-empty list. -/
def msgHasToolCalls (m : Msg) : Bool :=
  match m.toolCalls with
  | some (_ :: _) => true
  | _ => false

/-- Delete a present-but-empty tool_calls key (chat_app.py lines 398-399 and
531-532 perform exactly this on a copy / on the fresh assistant message). -/
def removeEmptyToolCalls (m : Msg) : Msg :=
  if m.toolCalls = some [] then { m with toolCalls := none } else m

/-- chat_app.py _prepare_messages_for_api, value level: walk the history with
a flag recording whether the most recent assistant message carried tool
calls; emit copies, deleting empty tool_calls arrays from assistant copies
and dropping tool messages whose flag is down; a user message resets the
flag. -/
def prepareAux (flag : Bool) : List Msg → List Msg
  | [] => []
  | m :: rest =>
    match m.role with
    | Role.assistant => removeEmptyToolCalls m :: prepareAux (msgHasToolCalls m) rest
    | Role.tool => if flag then m :: prepareAux flag rest else prepareAux flag rest
    | Role.user => m :: prepareAux false rest
    | _ => m :: prepareAux flag rest

def prepareMessagesForApi (messages : List Msg) : List Msg :=
  prepareAux false messages

/-- Checker for the sequencing invariant: every tool-role message is preceded
by a nearest assistant message that carried a non-empty tool_calls list.  The
flag holds exactly when the nearest preceding assistant message so far has
non-empty tool_calls (initially there is none, so it starts false). -/
def noOrphanCheck (flag : Bool) : List Msg → Bool
  | [] => true
  | m :: rest =>
    match m.role with
    | Role.assistant => noOrphanCheck (msgHasToolCalls m) rest
    | Role.tool => flag && noOrphanCheck flag rest
    | _ => noOrphanCheck flag rest

/- A small heap model for the frame property of _prepare_messages_for_api:
the stored history is a list of cells (the Python objects), and a message
reference is an index into it.  msg.copy() allocates a fresh cell holding the
same value; the deletion of an empty tool_calls key is a write to that fresh
cell only. -/
abbrev Store := List Msg

def readRef (store : Store) (r : Nat) : Msg :=
  store.getD r default

/-- chat_app.py _prepare_messages_for_api at the heap level: for each history
reference, allocate a copy cell (msg_copy = msg.copy()); for an assistant
message additionally overwrite the copy cell with the version whose empty
tool_calls key is deleted; return the final store and the references that
make up the transmitted list (orphaned tool copies are allocated but never
referenced). -/
def prepareRefs (store : Store) (flag : Bool) : List Nat → Store × List Nat
  | [] => (store, [])
  | r :: rest =>
    let m := readRef store r
    let copyRef := store.length
    let store1 := store ++ [m]
    match m.role with
    | Role.assistant =>
      let store2 := store1.set copyRef (removeEmptyToolCalls m)
      let out := prepareRefs store2 (msgHasToolCalls m) rest
      (out.1, copyRef :: out.2)
    | Role.tool =>
      if flag then
        let out := prepareRefs store1 flag rest
        (out.1, copyRef :: out.2)
      else prepareRefs store1 flag rest
    | Role.user =>
      let out := prepareRefs store1 false rest
      (out.1, copyRef :: out.2)
    | _ =>
      let out := prepareRefs store1 flag rest
      (out.1, copyRef :: out.2)

/-- The message-preparation step of chat_app.py chat_completion: sanitize the
stored history into the transmitted message list.  Returns the store after
the call together with the messages placed in the request payload. -/
def chatCompletionPrepare (store : Store) (history : List Nat) : Store × List Msg :=
  let out := prepareRefs store false history
  (out.1, out.2.map (readRef out.1))

/-- Outcome of one call to the external MCP tool-execution collaborator. -/
inductive ExecResult where
  | ok (payload : Json) : ExecResult
  | raises (message : String) : ExecResult
deriving DecidableEq, Repr

abbrev Executor := String → JsonObj → ExecResult

/-- The dict returned by execute_tool_via_mcp's except branch. -/
def toolErrorResult (toolName : String) (e : String) : Json :=
  Json.obj (JsonObj.cons ("error")
    (Json.str ("Error executing tool " ++ toolName ++ ": " ++ e)) JsonObj.nil)

/-- chat_app.py execute_tool_via_mcp: clean the arguments with the literal
pass, call the collaborator, and convert an exception into an error dict.
The second component records the invocation that reached the collaborator. -/
def executeToolViaMcp (exec : Executor) (toolName : String) (args : JsonObj) :
    Json × (String × JsonObj) :=
  let cleaned := cleanToolArguments args
  match exec toolName cleaned with
  | ExecResult.ok payload => (payload, (toolName, cleaned))
  | ExecResult.raises e => (toolErrorResult toolName e, (toolName, cleaned))

/-- chat_app.py lines 624-635: obtain the argument dict of a tool call.  A
string is json.loads-ed with {} on decode failure; a dict is taken as is;
anything else becomes {}. -/
def argsJsonOf (tc : ToolCall) : Json :=
  match tc.arguments with
  | Json.str s =>
    match jsonParse s with
    | some parsed => parsed
    | none => Json.obj JsonObj.nil
  | Json.obj kvs => Json.obj kvs
  | _ => Json.obj JsonObj.nil

def isObjVal : Json → Bool
  | Json.obj _ => true
  | _ => false

def objMembersOf : Json → JsonObj
  | Json.obj kvs => kvs
  | _ => JsonObj.nil

/-- The tool-role message appended for one executed tool call (chat_app.py
lines 637-649). -/
def toolMsgOf (exec : Executor) (tc : ToolCall) : Msg :=
  { role := Role.tool
    content := some (jsonDump (executeToolViaMcp exec tc.name (objMembersOf (argsJsonOf tc))).1)
    toolCallId := some tc.id
    name := some tc.name }

/-- The invocation that reaches the collaborator for one tool call. -/
def callRecordOf (exec : Executor) (tc : ToolCall) : String × JsonObj :=
  (executeToolViaMcp exec tc.name (objMembersOf (argsJsonOf tc))).2

/-- One pass of the tool-execution loop body.  When the argument value is not
a dict, Python's _clean_tool_arguments raises AttributeError on .items(),
which is not caught anywhere in process_message; that crash is the error
case. -/
def runOneToolCall (exec : Executor) (tc : ToolCall) :
    Except String (Msg × (String × JsonObj)) :=
  match argsJsonOf tc with
  | Json.obj kvs =>
    let inv := executeToolViaMcp exec tc.name kvs
    Except.ok ({ role := Role.tool
                 content := some (jsonDump inv.1)
                 toolCallId := some tc.id
                 name := some tc.name }, inv.2)
  | _ => Except.error ("AttributeError: tool arguments for " ++ tc.name ++ " are not a dict")

/-- chat_app.py lines 617-653: execute the queued tool calls sequentially,
collecting one tool message per call and the trace of collaborator
invocations. -/
def runToolCalls (exec : Executor) : List ToolCall → Except String (List Msg × List (String × JsonObj))
  | [] => Except.ok ([], [])
  | tc :: rest =>
    match runOneToolCall exec tc with
    | Except.error e => Except.error e
    | Except.ok (msg, inv) =>
      match runToolCalls exec rest with
      | Except.error e => Except.error e
      | Except.ok (msgs, invs) => Except.ok (msg :: msgs, inv :: invs)

/-- One backend completion response: choices[0].message plus
choices[0].finish_reason. -/
structure Resp where
  message : Msg
  finishReason : String
deriving DecidableEq, Repr

/-- The loop state of process_message: self.messages, the parallel
messages_with_summary working list, the candidate final answer, plus two
observable traces — the collaborator invocations made and the number of
completion requests issued. -/
structure TurnState where
  messages : List Msg
  working : List Msg
  finalResponse : Option String
  calls : List (String × JsonObj)
  requests : Nat
deriving DecidableEq, Repr

inductive StepRes where
  | cont (s : TurnState) : StepRes
  | done (s : TurnState) : StepRes
deriving DecidableEq, Repr

/-- Outcome of the if/elif chain at chat_app.py lines 552-603: either break
out of the while loop, or fall through to the truncation check and the
tool-execution block with the (possibly mutated) assistant message. -/
inductive ChainRes where
  | stopTurn (s : TurnState) : ChainRes
  | fall (am : Msg) (s : TurnState) : ChainRes
deriving DecidableEq, Repr

/-- chat_app.py lines 588-592: scan the last five stored messages for a
tool result (it only selects which completion banner is printed). -/
def hasRecentToolResults (msgs : List Msg) : Bool :=
  (msgs.drop (msgs.length - 5)).any (fun m => decide (m.role = Role.tool))

def truncatedNotice : String := "(Response truncated due to length limit)"

def noResponseNotice : String := "(No response generated)"

/-- Python truthiness of the final_response variable. -/
def optTruthy (o : Option String) : Bool :=
  match o with
  | some s => s != ""
  | none => false

/-- The synthetic tool_calls entry built at chat_app.py lines 563-570 from a
tool call recovered out of content. -/
def synthToolCall (iteration : Nat) (p : ParsedCall) : ToolCall :=
  { id := "call_" ++ toString iteration
    name := p.name
    arguments := Json.str (jsonDump p.arguments) }

/-- One iteration of the process_message while loop (chat_app.py lines
491-660), applied to the completion response of this iteration. -/
def processIter (tools : List String) (exec : Executor) (iteration : Nat)
    (resp : Resp) (s : TurnState) : Except String StepRes :=
  let am := removeEmptyToolCalls resp.message
  let finishReason := resp.finishReason
  let contentStr := am.content.getD ""
  let s1 : TurnState :=
    { s with
      messages := s.messages ++ [am]
      working := s.working ++ [am]
      finalResponse := if contentStr = "" then s.finalResponse else some contentStr }
  let parsedToolCall : Option ParsedCall :=
    if contentStr = "" then none
    else if msgHasToolCalls am then none
    else parseToolCallFromContent tools contentStr
  let chain : ChainRes :=
    if msgHasToolCalls am then
      ChainRes.fall am s1
    else
      match parsedToolCall with
      | some p =>
        let am2 := { am with toolCalls := some (am.toolCalls.getD [] ++ [synthToolCall iteration p]) }
        ChainRes.fall am2
          { s1 with
            messages := s1.messages.dropLast ++ [am2]
            working := s1.working.dropLast ++ [am2]
            finalResponse := none }
      | none =>
        if optTruthy s1.finalResponse then
          if finishReason = "stop" then
            if hasRecentToolResults s1.messages then ChainRes.stopTurn s1
            else ChainRes.stopTurn s1
          else ChainRes.fall am s1
        else if finishReason = "stop" then ChainRes.stopTurn s1
        else ChainRes.fall am s1
  match chain with
  | ChainRes.stopTurn s2 => Except.ok (StepRes.done s2)
  | ChainRes.fall am3 s2 =>
    if finishReason = "length" then
      Except.ok (StepRes.done
        { s2 with
          finalResponse := if optTruthy s2.finalResponse then s2.finalResponse
                           else some truncatedNotice })
    else if msgHasToolCalls am3 then
      match runToolCalls exec (am3.toolCalls.getD []) with
      | Except.error e => Except.error e
      | Except.ok (toolMsgs, invs) =>
        Except.ok (StepRes.cont
          { s2 with
            messages := s2.messages ++ toolMsgs
            working := s2.working ++ toolMsgs
            calls := s2.calls ++ invs })
    else Except.ok (StepRes.done s2)

/-- The while loop of process_message, by fuel on the remaining iteration
budget.  The backend is an oracle from the 1-based iteration number to the
completion response of that request; every call of it is one completion
request. -/
def processLoop (tools : List String) (exec : Executor) (backend : Nat → Resp) :
    Nat → Nat → TurnState → Except String TurnState
  | 0, _, s => Except.ok s
  | fuel + 1, iteration, s =>
    let iter2 := iteration + 1
    match processIter tools exec iter2 (backend iter2) { s with requests := s.requests + 1 } with
    | Except.error e => Except.error e
    | Except.ok (StepRes.done sEnd) => Except.ok sEnd
    | Except.ok (StepRes.cont sNext) => processLoop tools exec backend fuel iter2 sNext

/-- Python `a or b` on the final_response string. -/
def pyOrElse (o : Option String) (fallback : String) : String :=
  match o with
  | some s => if s = "" then fallback else s
  | none => fallback

def initTurnState (history working : List Msg) : TurnState :=
  { messages := history, working := working, finalResponse := none, calls := [], requests := 0 }

/-- The iteration budget hard-coded in chat_app.py process_message. -/
def maxIterationsChatApp : Nat := 10

/-- chat_app.py process_message from the top of the while loop to the return:
run up to maxIterations iterations and return final_response or the
fallback notice, together with the final loop state. -/
def processTurn (tools : List String) (exec : Executor) (backend : Nat → Resp)
    (maxIterations : Nat) (history working : List Msg) :
    Except String (String × TurnState) :=
  match processLoop tools exec backend maxIterations 0 (initTurnState history working) with
  | Except.error e => Except.error e
  | Except.ok s => Except.ok (pyOrElse s.finalResponse noResponseNotice, s)

/-- State of conversation_app.py's streaming quote/action segment parser. -/
structure StreamState where
  inQuote : Bool := false
  currentQuote : String := ""
  speechQueue : List String := []
  inAction : Bool := false
  currentAction : String := ""
  actionQueue : List String := []
  starCount : Nat := 0
deriving DecidableEq, Repr

/-- conversation_app.py parse_token, one character. -/
def parseChar (st : StreamState) (c : Char) : StreamState :=
  if c = '"' then
    if st.inQuote then
      { st with
        speechQueue := if st.currentQuote = "" then st.speechQueue
                       else st.speechQueue ++ [st.currentQuote]
        currentQuote := ""
        inQuote := false }
    else { st with inQuote := true }
  else if st.inQuote then
    { st with currentQuote := st.currentQuote.push c }
  else if c = '*' then
    if st.inAction then
      if st.starCount + 1 = 2 then
        { st with
          actionQueue := if st.currentAction = "" then st.actionQueue
                         else st.actionQueue ++ [st.currentAction]
          currentAction := ""
          inAction := false
          starCount := 0 }
      else { st with starCount := st.starCount + 1 }
    else
      if st.starCount + 1 = 2 then { st with inAction := true, starCount := 0 }
      else { st with starCount := st.starCount + 1 }
  else
    if st.inAction then { st with starCount := 0, currentAction := st.currentAction.push c }
    else { st with starCount := 0 }

/-- conversation_app.py parse_token: fold the per-character step over one
streamed fragment. -/
def parseToken (st : StreamState) (token : String) : StreamState :=
  token.data.foldl parseChar st

/-- A backend response behaves like the responses assumed by the loop
theorems: tool calls present after empty-array cleanup, no truncation, and
every argument value decodes to a dict. -/
def goodResp (r : Resp) : Prop :=
  msgHasToolCalls (removeEmptyToolCalls r.message) = true ∧
  r.finishReason ≠ "length" ∧
  ∀ tc ∈ (removeEmptyToolCalls r.message).toolCalls.getD [],
    isObjVal (argsJsonOf tc) = true

/- Concrete scenarios used by the witness and counterexample theorems. -/

def okExec : Executor := fun _ _ => ExecResult.ok Json.null

def c1Tools : List String := ["nod_head"]

def c1Content : String :=
  "I will nod. \x7b\"name\": \"nod_head\", \"parameters\": \x7b\"speed\": \"true\"\x7d\x7d"

def c1Params : JsonObj := JsonObj.cons ("speed") (Json.str ("true")) JsonObj.nil

def c1Resp : Resp :=
  { message := { role := Role.assistant, content := some c1Content }
    finishReason := "stop" }

def c2Call : ToolCall :=
  { id := "call_a", name := "move_head", arguments := Json.obj JsonObj.nil }

def c2Resp : Resp :=
  { message := { role := Role.assistant, toolCalls := some [c2Call] }
    finishReason := "length" }

def c2wCallA : ToolCall :=
  { id := "a1", name := "wave", arguments := Json.str ("\x7b\"x\": \"null\"\x7d") }

def c2wCallB : ToolCall :=
  { id := "a2", name := "dance"
    arguments := Json.obj (JsonObj.cons ("fast") (Json.str ("false")) JsonObj.nil) }

def c2wResp : Resp :=
  { message := { role := Role.assistant, content := some ("on it")
                 toolCalls := some [c2wCallA, c2wCallB] }
    finishReason := "stop" }

def c3Call : ToolCall :=
  { id := "cc", name := "spin", arguments := Json.obj JsonObj.nil }

def c3Demo : List Msg :=
  [ { role := Role.system, content := some ("sys") }
  , { role := Role.user, content := some ("hi") }
  , { role := Role.assistant, content := some ("ok"), toolCalls := some [] }
  , { role := Role.tool, content := some ("orphan"), name := some ("x") }
  , { role := Role.assistant, toolCalls := some [c3Call] }
  , { role := Role.tool, content := some ("res"), toolCallId := some ("cc") } ]

def c4CallA : ToolCall :=
  { id := "b1", name := "alpha", arguments := Json.obj JsonObj.nil }

def c4CallB : ToolCall :=
  { id := "b2", name := "beta", arguments := Json.obj JsonObj.nil }

def c4CallC : ToolCall :=
  { id := "b3", name := "gamma"
    arguments := Json.obj (JsonObj.cons ("n") (Json.num ("1")) JsonObj.nil) }

def c4Exec : Executor := fun toolName _ =>
  if toolName = "beta" then ExecResult.raises ("boom") else ExecResult.ok Json.null

def c4Resp : Resp :=
  { message := { role := Role.assistant, toolCalls := some [c4CallA, c4CallB, c4CallC] }
    finishReason := "tool_calls" }

def c5Resp : Resp :=
  { message := { role := Role.assistant
                 toolCalls := some [{ id := "t1", name := "spin", arguments := Json.obj JsonObj.nil }] }
    finishReason := "tool_calls" }

def c5Backend : Nat → Resp := fun _ => c5Resp

def c6Tools : List String := ["wave_hand"]

def c6NoBraces : String := "just words, nothing else"

def c6BadJson : String := "\x7bnot valid json\x7d"

def c6KnownContent : String := "\x7b\"name\": \"wave_hand\"\x7d"

def c7Args : JsonObj :=
  JsonObj.cons ("k") (Json.str ("\x7b\"inner\": \"[1]\"\x7d")) JsonObj.nil

def c8Content : String :=
  "\x7b\"name\": \"nod_head\", \"parameters\": \x7b\"angle\": \"null\", \"duration\": \"2.0\"\x7d\x7d"

def c8Params : JsonObj :=
  JsonObj.cons ("angle") (Json.str ("null"))
    (JsonObj.cons ("duration") (Json.str ("2.0")) JsonObj.nil)

def c9State : StreamState :=
  { inQuote := true, currentQuote := "hel", speechQueue := [("prev")]
    inAction := false, currentAction := "", actionQueue := [], starCount := 1 }

def c10Store : Store :=
  [ { role := Role.system, content := some ("sys") }
  , { role := Role.assistant, content := some ("a"), toolCalls := some [] }
  , { role := Role.tool, content := some ("orphan") } ]

def c10History : List Nat := [0, 1, 2]

/- Helper lemmas shared by the claim theorems. -/

lemma cleanToolArguments_no_literals : ∀ (args : JsonObj),
    ∀ k v, objGet (cleanToolArguments args) k = some v →
      v ≠ Json.str ("null") ∧ v ≠ Json.str ("None") ∧
      v ≠ Json.str ("true") ∧ v ≠ Json.str ("false")
  | JsonObj.nil => by intro k v h; cases h
  | JsonObj.cons key val tl => by
    have ih := cleanToolArguments_no_literals tl
    intro k v h
    by_cases h1 : val = Json.str ("null") ∨ val = Json.str ("None")
    · rw [cleanToolArguments, if_pos h1] at h
      exact ih k v h
    · by_cases h2 : val = Json.str ("true")
      · rw [cleanToolArguments, if_neg h1, if_pos h2] at h
        rw [objGet] at h
        by_cases hk : key = k
        · rw [if_pos hk] at h
          cases h
          refine ⟨by decide, by decide, by decide, by decide⟩
        · rw [if_neg hk] at h
          exact ih k v h
      · by_cases h3 : val = Json.str ("false")
        · rw [cleanToolArguments, if_neg h1, if_neg h2, if_pos h3] at h
          rw [objGet] at h
          by_cases hk : key = k
          · rw [if_pos hk] at h
            cases h
            refine ⟨by decide, by decide, by decide, by decide⟩
          · rw [if_neg hk] at h
            exact ih k v h
        · rw [cleanToolArguments, if_neg h1, if_neg h2, if_neg h3] at h
          rw [objGet] at h
          by_cases hk : key = k
          · rw [if_pos hk] at h
            cases h
            push_neg at h1
            exact ⟨h1.1, h1.2, h2, h3⟩
          · rw [if_neg hk] at h
            exact ih k v h

/-- Claim C7 amended, helper: one clean pass leaves no literal junk behind,
so a second pass is the identity on its output. -/
lemma cleanToolArguments_idem : ∀ (args : JsonObj),
    cleanToolArguments (cleanToolArguments args) = cleanToolArguments args
  | JsonObj.nil => rfl
  | JsonObj.cons key val tl => by
    have ih := cleanToolArguments_idem tl
    by_cases h1 : val = Json.str ("null") ∨ val = Json.str ("None")
    · rw [cleanToolArguments, if_pos h1, ih]
    · by_cases h2 : val = Json.str ("true")
      · rw [cleanToolArguments, if_neg h1, if_pos h2]
        rw [cleanToolArguments]
        simp only [ih]
        rw [if_neg (by decide), if_neg (by decide), if_neg (by decide)]
      · by_cases h3 : val = Json.str ("false")
        · rw [cleanToolArguments, if_neg h1, if_neg h2, if_pos h3]
          rw [cleanToolArguments]
          simp only [ih]
          rw [if_neg (by decide), if_neg (by decide), if_neg (by decide)]
        · rw [cleanToolArguments, if_neg h1, if_neg h2, if_neg h3]
          rw [cleanToolArguments, if_neg h1, if_neg h2, if_neg h3, ih]

/-- Claim C7, corrected.  The original claim asserts that both
argument-normalization passes are idempotent.  The double-encoding-repair
pass is not: a string value that json-decodes to a dict is inserted without
recursive repair, so a second application decodes strings nested inside it.
At arguments left key "k" maps to the string-encoded object whose "inner"
value is the string "[1]", one pass yields a dict still holding the string
"[1]", and a second pass decodes it further to the array [1]. -/
theorem c7_cex_double_encoding_repair_not_idempotent :
    fixDoubleEncodedParams (fixDoubleEncodedParams (Json.obj c7Args)) ≠
      fixDoubleEncodedParams (Json.obj c7Args) := by decide

/-- Claim C7, amended: the literal-repair pass _clean_tool_arguments is
idempotent on every arguments dictionary; the double-encoding-repair pass
_fix_double_encoded_params is not idempotent in general (refuted by the
counterexample). -/
theorem c7_literal_repair_idempotent (args : JsonObj) :
    cleanToolArguments (cleanToolArguments args) = cleanToolArguments args :=
  cleanToolArguments_idem args

/-- Claim C8: on content holding the nod_head call whose "angle" parameter is
the string "null" and whose "duration" is the string "2.0", extraction
returns the nod_head call with both raw parameters, and the literal-repair
cleaning applied at dispatch omits angle entirely while keeping duration as
the unchanged string "2.0". -/
theorem c8_nod_head_extraction_and_cleaning :
    parseToolCallFromContent ["nod_head"] c8Content =
      some ⟨"nod_head", Json.obj c8Params⟩ ∧
    cleanToolArguments c8Params =
      JsonObj.cons ("duration") (Json.str ("2.0")) JsonObj.nil := by
  constructor
  · rfl
  · rfl

lemma role_removeEmpty (m : Msg) : (removeEmptyToolCalls m).role = m.role := by
  rw [removeEmptyToolCalls]
  split <;> rfl

lemma content_removeEmpty (m : Msg) : (removeEmptyToolCalls m).content = m.content := by
  rw [removeEmptyToolCalls]
  split <;> rfl

lemma msgHasToolCalls_removeEmpty (m : Msg) :
    msgHasToolCalls (removeEmptyToolCalls m) = msgHasToolCalls m := by
  by_cases h : m.toolCalls = some []
  · simp [removeEmptyToolCalls, msgHasToolCalls, h]
  · simp [removeEmptyToolCalls, h]

lemma removeEmpty_ne_empty (m : Msg) : (removeEmptyToolCalls m).toolCalls ≠ some [] := by
  by_cases h : m.toolCalls = some []
  · simp [removeEmptyToolCalls, h]
  · simp [removeEmptyToolCalls, h]

lemma prepareAux_noOrphan : ∀ (l : List Msg) (b b' : Bool),
    (b = true → b' = true) → noOrphanCheck b' (prepareAux b l) = true := by
  intro l
  induction l with
  | nil => intro b b' _; rfl
  | cons m rest ih =>
    intro b b' hbb
    cases hrole : m.role with
    | assistant =>
      simp only [prepareAux, hrole, noOrphanCheck, role_removeEmpty,
        msgHasToolCalls_removeEmpty]
      exact ih (msgHasToolCalls m) (msgHasToolCalls m) (fun h => h)
    | tool =>
      by_cases hb : b = true
      · have hb' := hbb hb
        subst hb'
        simp only [prepareAux, hrole, if_pos hb, noOrphanCheck, Bool.true_and]
        exact ih b true (fun _ => rfl)
      · simp only [prepareAux, hrole, if_neg hb]
        exact ih b b' hbb
    | user =>
      simp only [prepareAux, hrole, noOrphanCheck]
      exact ih false b' (fun h => Bool.noConfusion h)
    | system =>
      simp only [prepareAux, hrole, noOrphanCheck]
      exact ih b b' hbb
    | other tag =>
      simp only [prepareAux, hrole, noOrphanCheck]
      exact ih b b' hbb

lemma prepareAux_assistant_ne_empty : ∀ (l : List Msg) (b : Bool),
    ∀ m ∈ prepareAux b l, m.role = Role.assistant → m.toolCalls ≠ some [] := by
  intro l
  induction l with
  | nil => intro b m hm; cases hm
  | cons hd rest ih =>
    intro b m hm
    cases hrole : hd.role with
    | assistant =>
      simp only [prepareAux, hrole] at hm
      rcases List.mem_cons.mp hm with h | h
      · intro _; rw [h]; exact removeEmpty_ne_empty hd
      · exact ih (msgHasToolCalls hd) m h
    | tool =>
      simp only [prepareAux, hrole] at hm
      by_cases hb : b = true
      · rw [if_pos hb] at hm
        rcases List.mem_cons.mp hm with h | h
        · intro hass; rw [h, hrole] at hass; cases hass
        · exact ih b m h
      · rw [if_neg hb] at hm
        exact ih b m hm
    | user =>
      simp only [prepareAux, hrole] at hm
      rcases List.mem_cons.mp hm with h | h
      · intro hass; rw [h, hrole] at hass; cases hass
      · exact ih false m h
    | system =>
      simp only [prepareAux, hrole] at hm
      rcases List.mem_cons.mp hm with h | h
      · intro hass; rw [h, hrole] at hass; cases hass
      · exact ih b m h
    | other tag =>
      simp only [prepareAux, hrole] at hm
      rcases List.mem_cons.mp hm with h | h
      · intro hass; rw [h, hrole] at hass; cases hass
      · exact ih b m h

/-- Claim C3: in the sanitized list produced by _prepare_messages_for_api, a
tool-role message only appears when the nearest preceding assistant message
carries a non-empty tool_calls field (noOrphanCheck walks the output with
exactly that flag), and no assistant message in the output carries an empty
tool_calls array. -/
theorem c3_sanitized_history_has_no_orphan_tool_messages (messages : List Msg) :
    noOrphanCheck false (prepareMessagesForApi messages) = true ∧
    ∀ m ∈ prepareMessagesForApi messages, m.role = Role.assistant → m.toolCalls ≠ some [] :=
  ⟨prepareAux_noOrphan messages false false (fun h => h),
   prepareAux_assistant_ne_empty messages false⟩

/-- Witness for C3 on a history containing an assistant message with an empty
tool_calls array and an orphaned tool message. -/
theorem c3_witness :
    noOrphanCheck false (prepareMessagesForApi c3Demo) = true ∧
    ({ role := Role.assistant, toolCalls := some [c3Call] } : Msg).toolCalls ≠ some [] :=
  ⟨(c3_sanitized_history_has_no_orphan_tool_messages c3Demo).1,
   (c3_sanitized_history_has_no_orphan_tool_messages c3Demo).2
     { role := Role.assistant, toolCalls := some [c3Call] } (by decide) rfl⟩

/-- Claim C6: tool-call extraction is a total function of the content and the
known-tool set; when no brace-delimited slice exists, or when both the parse
of the slice and the retry with one appended closing brace fail, it returns
none, and whenever it returns a call the name was validated against the
known tools (so unknown or non-string names also yield none). -/
theorem c6_extraction_failures_yield_none (tools : List String) (content : String) :
    (extractJsonSlice content = none → parseToolCallFromContent tools content = none) ∧
    (∀ js, extractJsonSlice content = some js → jsonParse js = none →
      jsonParse (js ++ "\x7d") = none → parseToolCallFromContent tools content = none) ∧
    (∀ p, parseToolCallFromContent tools content = some p → p.name ∈ tools) := by
  by_cases hc : content = "" ∨ pyStrip content = ""
  · refine ⟨?_, ?_, ?_⟩
    · intro _; rw [parseToolCallFromContent, if_pos hc]
    · intro js _ _ _; rw [parseToolCallFromContent, if_pos hc]
    · intro p hp; rw [parseToolCallFromContent, if_pos hc] at hp; cases hp
  · refine ⟨?_, ?_, ?_⟩
    · intro hex; rw [parseToolCallFromContent, if_neg hc, hex]
    · intro js hex h1 h2
      rw [parseToolCallFromContent, if_neg hc, hex]
      simp only [h1, h2]
    · intro p hp
      rw [parseToolCallFromContent, if_neg hc] at hp
      rcases hex : extractJsonSlice content with _ | js
      · rw [hex] at hp; cases hp
      · rw [hex] at hp
        dsimp only at hp
        split at hp
        · split at hp
          · split at hp
            · split at hp
              · cases hp
                assumption
              · cases hp
            · cases hp
          · cases hp
        · cases hp
        · cases hp

lemma set_append_length (l : List Msg) (a b : Msg) :
    (l ++ [a]).set l.length b = l ++ [b] := by
  induction l with
  | nil => rfl
  | cons x xs ih => simp [List.set, ih]

lemma readRef_append_of_lt (store ext : Store) (r : Nat) (h : r < store.length) :
    readRef (store ++ ext) r = readRef store r := by
  unfold readRef
  rw [List.getD_append _ _ _ _ h]

lemma readRef_append_middle (store : Store) (a : Msg) (ext : Store) :
    readRef (store ++ a :: ext) store.length = a := by
  unfold readRef
  rw [List.getD_append_right _ _ _ _ (le_refl _)]
  simp

lemma prepareRefs_store_ext : ∀ (refs : List Nat) (store : Store) (flag : Bool),
    ∃ ext, (prepareRefs store flag refs).1 = store ++ ext := by
  intro refs
  induction refs with
  | nil => intro store flag; exact ⟨[], by simp [prepareRefs]⟩
  | cons r rest ih =>
    intro store flag
    cases hrole : (readRef store r).role with
    | assistant =>
      obtain ⟨ext, hext⟩ := ih (store ++ [removeEmptyToolCalls (readRef store r)])
        (msgHasToolCalls (readRef store r))
      refine ⟨removeEmptyToolCalls (readRef store r) :: ext, ?_⟩
      simp only [prepareRefs, hrole, set_append_length]
      rw [hext, List.append_assoc, List.singleton_append]
    | tool =>
      obtain ⟨ext, hext⟩ := ih (store ++ [readRef store r]) flag
      refine ⟨readRef store r :: ext, ?_⟩
      simp only [prepareRefs, hrole]
      by_cases hb : flag = true
      · rw [if_pos hb, hext, List.append_assoc, List.singleton_append]
      · rw [if_neg hb, hext, List.append_assoc, List.singleton_append]
    | user =>
      obtain ⟨ext, hext⟩ := ih (store ++ [readRef store r]) false
      refine ⟨readRef store r :: ext, ?_⟩
      simp only [prepareRefs, hrole]
      rw [hext, List.append_assoc, List.singleton_append]
    | system =>
      obtain ⟨ext, hext⟩ := ih (store ++ [readRef store r]) flag
      refine ⟨readRef store r :: ext, ?_⟩
      simp only [prepareRefs, hrole]
      rw [hext, List.append_assoc, List.singleton_append]
    | other tag =>
      obtain ⟨ext, hext⟩ := ih (store ++ [readRef store r]) flag
      refine ⟨readRef store r :: ext, ?_⟩
      simp only [prepareRefs, hrole]
      rw [hext, List.append_assoc, List.singleton_append]

lemma prepareRefs_spec : ∀ (refs : List Nat) (store : Store) (flag : Bool),
    (∀ r ∈ refs, r < store.length) →
    ((prepareRefs store flag refs).2).map (readRef (prepareRefs store flag refs).1) =
      prepareAux flag (refs.map (readRef store)) := by
  intro refs
  induction refs with
  | nil => intro store flag _; rfl
  | cons r rest ih =>
    intro store flag hvalid
    have hrest : ∀ x ∈ rest, x < store.length := fun x hx => hvalid x (by simp [hx])
    cases hrole : (readRef store r).role with
    | assistant =>
      have hmaps : rest.map (readRef (store ++ [removeEmptyToolCalls (readRef store r)])) =
          rest.map (readRef store) :=
        List.map_congr_left (fun x hx => readRef_append_of_lt _ _ _ (hrest x hx))
      obtain ⟨ext, hext⟩ := prepareRefs_store_ext rest
        (store ++ [removeEmptyToolCalls (readRef store r)]) (msgHasToolCalls (readRef store r))
      have htail := ih (store ++ [removeEmptyToolCalls (readRef store r)])
        (msgHasToolCalls (readRef store r))
        (fun x hx => lt_of_lt_of_le (hrest x hx) (by simp))
      simp only [prepareRefs, hrole, set_append_length, List.map_cons, List.map, prepareAux]
      rw [htail, hmaps, hext, List.append_assoc, List.singleton_append,
        readRef_append_middle]
    | tool =>
      have hmaps : rest.map (readRef (store ++ [readRef store r])) = rest.map (readRef store) :=
        List.map_congr_left (fun x hx => readRef_append_of_lt _ _ _ (hrest x hx))
      obtain ⟨ext, hext⟩ := prepareRefs_store_ext rest (store ++ [readRef store r]) flag
      have htail := ih (store ++ [readRef store r]) flag
        (fun x hx => lt_of_lt_of_le (hrest x hx) (by simp))
      simp only [prepareRefs, hrole, List.map_cons, List.map, prepareAux]
      by_cases hb : flag = true
      · rw [if_pos hb, if_pos hb]
        simp only [List.map_cons]
        rw [htail, hmaps, hext, List.append_assoc, List.singleton_append,
          readRef_append_middle]
      · rw [if_neg hb, if_neg hb]
        rw [htail, hmaps]
    | user =>
      have hmaps : rest.map (readRef (store ++ [readRef store r])) = rest.map (readRef store) :=
        List.map_congr_left (fun x hx => readRef_append_of_lt _ _ _ (hrest x hx))
      obtain ⟨ext, hext⟩ := prepareRefs_store_ext rest (store ++ [readRef store r]) false
      have htail := ih (store ++ [readRef store r]) false
        (fun x hx => lt_of_lt_of_le (hrest x hx) (by simp))
      simp only [prepareRefs, hrole, List.map_cons, List.map, prepareAux]
      rw [htail, hmaps, hext, List.append_assoc, List.singleton_append,
        readRef_append_middle]
    | system =>
      have hmaps : rest.map (readRef (store ++ [readRef store r])) = rest.map (readRef store) :=
        List.map_congr_left (fun x hx => readRef_append_of_lt _ _ _ (hrest x hx))
      obtain ⟨ext, hext⟩ := prepareRefs_store_ext rest (store ++ [readRef store r]) flag
      have htail := ih (store ++ [readRef store r]) flag
        (fun x hx => lt_of_lt_of_le (hrest x hx) (by simp))
      simp only [prepareRefs, hrole, List.map_cons, List.map, prepareAux]
      rw [htail, hmaps, hext, List.append_assoc, List.singleton_append,
        readRef_append_middle]
    | other tag =>
      have hmaps : rest.map (readRef (store ++ [readRef store r])) = rest.map (readRef store) :=
        List.map_congr_left (fun x hx => readRef_append_of_lt _ _ _ (hrest x hx))
      obtain ⟨ext, hext⟩ := prepareRefs_store_ext rest (store ++ [readRef store r]) flag
      have htail := ih (store ++ [readRef store r]) flag
        (fun x hx => lt_of_lt_of_le (hrest x hx) (by simp))
      simp only [prepareRefs, hrole, List.map_cons, List.map, prepareAux]
      rw [htail, hmaps, hext, List.append_assoc, List.singleton_append,
        readRef_append_middle]

/-- Claim C10: preparing a request never mutates the stored conversation.  In
the heap model, _prepare_messages_for_api only allocates fresh copy cells and
writes (the empty-tool_calls deletion) only to those fresh cells, so the
store after the call extends the old store unchanged, while the transmitted
list is exactly the sanitized value-level image of the stored history —
orphaned tool messages and empty tool_calls fields are absent only from the
transmitted copy. -/
theorem c10_prepare_copies_leave_store_unchanged (store : Store) (history : List Nat)
    (hValid : ∀ r ∈ history, r < store.length) :
    (∃ ext, (chatCompletionPrepare store history).1 = store ++ ext) ∧
    (chatCompletionPrepare store history).2 =
      prepareMessagesForApi (history.map (readRef store)) := by
  constructor
  · obtain ⟨ext, hext⟩ := prepareRefs_store_ext history store false
    exact ⟨ext, hext⟩
  · exact prepareRefs_spec history store false hValid

/-- Witness for C10 on a store whose history holds an assistant message with
an empty tool_calls array and an orphaned tool message. -/
theorem c10_witness :
    (∃ ext, (chatCompletionPrepare c10Store c10History).1 = c10Store ++ ext) ∧
    (chatCompletionPrepare c10Store c10History).2 =
      prepareMessagesForApi (c10History.map (readRef c10Store)) :=
  c10_prepare_copies_leave_store_unchanged c10Store c10History (by decide)

/-- Claim C9: while the streaming segment parser is inside a double-quoted
segment, every consumed character other than the closing quote — including
'*' — is appended to the speech buffer and the action state is untouched;
the buffered text is flushed to the speech queue exactly when the closing
quote is consumed; and feeding a stream in arbitrary fragments composes. -/
theorem c9_quote_segment_parsing_step (st : StreamState) (c : Char)
    (h : st.inQuote = true) :
    (c ≠ '"' → parseChar st c = { st with currentQuote := st.currentQuote.push c }) ∧
    (c = '"' → parseChar st c =
      { st with
        inQuote := false
        currentQuote := ""
        speechQueue := if st.currentQuote = "" then st.speechQueue
                       else st.speechQueue ++ [st.currentQuote] }) ∧
    (∀ s1 s2 : String, parseToken st (s1 ++ s2) = parseToken (parseToken st s1) s2) := by
  refine ⟨?_, ?_, ?_⟩
  · intro hc
    rw [parseChar, if_neg hc, if_pos h]
  · intro hc
    subst hc
    rw [parseChar, if_pos rfl, if_pos h]
  · intro s1 s2
    rw [parseToken, parseToken, parseToken, String.data_append, List.foldl_append]

/-- Witness for C9 at a concrete in-quote state with a pending lone star:
a '*' consumed inside the quote is buffered as literal text. -/
theorem c9_witness :
    parseChar c9State '*' = { c9State with currentQuote := c9State.currentQuote.push '*' } :=
  (c9_quote_segment_parsing_step c9State '*' rfl).1 (by decide)

/-- Witness for C6: no-brace content and undecodable brace content both yield
none, and a successful extraction's name is validated against the tools. -/
theorem c6_witness :
    parseToolCallFromContent c6Tools c6NoBraces = none ∧
    parseToolCallFromContent c6Tools c6BadJson = none ∧
    ("wave_hand" : String) ∈ c6Tools :=
  ⟨(c6_extraction_failures_yield_none c6Tools c6NoBraces).1 rfl,
   (c6_extraction_failures_yield_none c6Tools c6BadJson).2.1 ("\x7bnot valid json\x7d")
     rfl rfl rfl,
   (c6_extraction_failures_yield_none c6Tools c6KnownContent).2.2
     ⟨"wave_hand", Json.obj JsonObj.nil⟩ rfl⟩

lemma parse_some_ne_empty (tools : List String) (c : String) (p : ParsedCall)
    (h : parseToolCallFromContent tools c = some p) : c ≠ "" := by
  intro hc
  subst hc
  rw [parseToolCallFromContent, if_pos (Or.inl rfl)] at h
  cases h

lemma exists_obj_of_isObjVal : ∀ (j : Json), isObjVal j = true → ∃ kvs, j = Json.obj kvs
  | Json.obj kvs, _ => ⟨kvs, rfl⟩
  | Json.null, h => Bool.noConfusion h
  | Json.bool _, h => Bool.noConfusion h
  | Json.num _, h => Bool.noConfusion h
  | Json.str _, h => Bool.noConfusion h
  | Json.arr _, h => Bool.noConfusion h

lemma runOneToolCall_ok (exec : Executor) (tc : ToolCall) (kvs : JsonObj)
    (h : argsJsonOf tc = Json.obj kvs) :
    runOneToolCall exec tc = Except.ok (toolMsgOf exec tc, callRecordOf exec tc) := by
  simp only [runOneToolCall, toolMsgOf, callRecordOf, objMembersOf, h]

lemma callRecordOf_eq (exec : Executor) (tc : ToolCall) (kvs : JsonObj)
    (h : argsJsonOf tc = Json.obj kvs) :
    callRecordOf exec tc = (tc.name, cleanToolArguments kvs) := by
  rw [callRecordOf, h]
  simp only [objMembersOf]
  cases hx : exec tc.name (cleanToolArguments kvs) <;> simp [executeToolViaMcp, hx]

lemma toolMsgOf_raises (exec : Executor) (tc : ToolCall) (kvs : JsonObj) (e : String)
    (h : argsJsonOf tc = Json.obj kvs)
    (hR : exec tc.name (cleanToolArguments kvs) = ExecResult.raises e) :
    toolMsgOf exec tc =
      { role := Role.tool
        content := some (jsonDump (toolErrorResult tc.name e))
        toolCallId := some tc.id
        name := some tc.name } := by
  rw [toolMsgOf, h]
  simp only [objMembersOf]
  simp [executeToolViaMcp, hR]

lemma runToolCalls_map (exec : Executor) : ∀ (tcs : List ToolCall),
    (∀ tc ∈ tcs, isObjVal (argsJsonOf tc) = true) →
    runToolCalls exec tcs =
      Except.ok (tcs.map (toolMsgOf exec), tcs.map (callRecordOf exec)) := by
  intro tcs
  induction tcs with
  | nil => intro _; rfl
  | cons tc rest ih =>
    intro h
    obtain ⟨kvs, hk⟩ := exists_obj_of_isObjVal _ (h tc (by simp))
    rw [runToolCalls, runOneToolCall_ok exec tc kvs hk, ih (fun t ht => h t (by simp [ht]))]
    rfl

lemma dropLast_append_single (l : List Msg) (a : Msg) : (l ++ [a]).dropLast = l := by
  simp

lemma processIter_native_toolCalls (tools : List String) (exec : Executor) (it : Nat)
    (resp : Resp) (s : TurnState)
    (hTC : msgHasToolCalls (removeEmptyToolCalls resp.message) = true)
    (hLen : resp.finishReason ≠ "length")
    (hArgs : ∀ tc ∈ (removeEmptyToolCalls resp.message).toolCalls.getD [],
        isObjVal (argsJsonOf tc) = true) :
    processIter tools exec it resp s = Except.ok (StepRes.cont
      { messages := (s.messages ++ [removeEmptyToolCalls resp.message]) ++
          ((removeEmptyToolCalls resp.message).toolCalls.getD []).map (toolMsgOf exec)
        working := (s.working ++ [removeEmptyToolCalls resp.message]) ++
          ((removeEmptyToolCalls resp.message).toolCalls.getD []).map (toolMsgOf exec)
        finalResponse := if (removeEmptyToolCalls resp.message).content.getD "" = ""
                         then s.finalResponse
                         else some ((removeEmptyToolCalls resp.message).content.getD "")
        calls := s.calls ++
          ((removeEmptyToolCalls resp.message).toolCalls.getD []).map (callRecordOf exec)
        requests := s.requests }) := by
  rw [processIter]
  simp only [hTC, hLen, if_true, if_false, ite_true, ite_false,
    runToolCalls_map exec _ hArgs]

lemma processIter_good_cont (tools : List String) (exec : Executor) (it : Nat)
    (resp : Resp) (s : TurnState) (h : goodResp resp) :
    ∃ s2, processIter tools exec it resp s = Except.ok (StepRes.cont s2) ∧
      s2.requests = s.requests :=
  ⟨_, processIter_native_toolCalls tools exec it resp s h.1 h.2.1 h.2.2, rfl⟩

lemma processLoop_all_good (tools : List String) (exec : Executor) (backend : Nat → Resp) :
    ∀ (fuel it : Nat) (s : TurnState),
      (∀ i, it < i → i ≤ it + fuel → goodResp (backend i)) →
      ∃ sEnd, processLoop tools exec backend fuel it s = Except.ok sEnd ∧
        sEnd.requests = s.requests + fuel := by
  intro fuel
  induction fuel with
  | zero => intro it s _; exact ⟨s, rfl, rfl⟩
  | succ fuel ih =>
    intro it s hgood
    obtain ⟨s2, hstep, hs2⟩ := processIter_good_cont tools exec (it + 1) (backend (it + 1))
      { s with requests := s.requests + 1 } (hgood (it + 1) (by omega) (by omega))
    obtain ⟨sEnd, hEnd, hreq⟩ := ih (it + 1) s2 (fun i h1 h2 => hgood i (by omega) (by omega))
    refine ⟨sEnd, ?_, ?_⟩
    · rw [processLoop, hstep]
      exact hEnd
    · rw [hreq, hs2]
      show s.requests + 1 + fuel = s.requests + (fuel + 1)
      omega

lemma pyOrElse_ne_empty (o : Option String) : pyOrElse o noResponseNotice ≠ "" := by
  cases o with
  | none => rw [pyOrElse]; decide
  | some c =>
    by_cases hc : c = ""
    · rw [pyOrElse, if_pos hc]; decide
    · rw [pyOrElse, if_neg hc]; exact hc

/-- Claim C5: with an iteration budget of 3 and a backend whose first three
responses each carry a tool call (and no truncation or crash), the loop
performs exactly 3 completion requests, then stops normally and returns a
non-empty string: the candidate answer when one exists, otherwise the
"(No response generated)" fallback. -/
theorem c5_iteration_budget_three_returns_nonempty (tools : List String) (exec : Executor)
    (backend : Nat → Resp) (history working : List Msg)
    (hgood : ∀ i, 1 ≤ i → i ≤ 3 → goodResp (backend i)) :
    ∃ answer sEnd, processTurn tools exec backend 3 history working =
        Except.ok (answer, sEnd) ∧
      sEnd.requests = 3 ∧
      answer ≠ "" ∧
      (sEnd.finalResponse = none → answer = noResponseNotice) ∧
      (∀ c, sEnd.finalResponse = some c → c ≠ "" → answer = c) := by
  obtain ⟨sEnd, hEnd, hreq⟩ := processLoop_all_good tools exec backend 3 0
    (initTurnState history working) (fun i h1 h2 => hgood i (by omega) (by omega))
  refine ⟨pyOrElse sEnd.finalResponse noResponseNotice, sEnd, ?_, ?_, ?_, ?_, ?_⟩
  · rw [processTurn, hEnd]
  · rw [hreq]; rfl
  · exact pyOrElse_ne_empty sEnd.finalResponse
  · intro h; rw [h]; rfl
  · intro c hc hne; rw [hc, pyOrElse, if_neg hne]

/-- Witness for C5: a backend that answers every request with the same spin
tool call and finish_reason tool_calls. -/
theorem c5_witness :
    ∃ answer sEnd, processTurn [] okExec c5Backend 3 [] [] = Except.ok (answer, sEnd) ∧
      sEnd.requests = 3 ∧
      answer ≠ "" ∧
      (sEnd.finalResponse = none → answer = noResponseNotice) ∧
      (∀ c, sEnd.finalResponse = some c → c ≠ "" → answer = c) :=
  c5_iteration_budget_three_returns_nonempty [] okExec c5Backend [] []
    (fun _ _ _ => show goodResp c5Resp from ⟨by decide, by decide, by decide⟩)

/-- Claim C2, counterexample.  The claim asserts that an iteration whose
assistant message carries a tool call executes it, appends a tool message and
requests another completion regardless of the finish reason, including
finish_reason=length.  With a native tool call and finish_reason=length, the
iteration instead stops the turn: the step result is done (no further
completion request), no collaborator invocation is recorded, and the only
appended message is the assistant message itself — no tool-role message. -/
theorem c2_cex_finish_length_skips_tool_execution :
    processIter [] okExec 1 c2Resp (initTurnState [] []) =
      Except.ok (StepRes.done
        { messages := [c2Resp.message]
          working := [c2Resp.message]
          finalResponse := some truncatedNotice
          calls := []
          requests := 0 }) := by
  rfl

/-- Claim C2, amended: for every iteration whose assistant message carries at
least one tool call after empty-array cleanup, if the reported finish reason
is not "length" (in particular for finish_reason=stop), the loop executes
each call sequentially in list order, appends one tool-role message per call,
and continues to request another completion; when finish_reason is "length"
the iteration stops without executing the calls (see the counterexample). -/
theorem c2_tool_calls_executed_in_order_unless_length (tools : List String) (exec : Executor)
    (it : Nat) (resp : Resp) (s : TurnState)
    (hTC : msgHasToolCalls (removeEmptyToolCalls resp.message) = true)
    (hLen : resp.finishReason ≠ "length")
    (hArgs : ∀ tc ∈ (removeEmptyToolCalls resp.message).toolCalls.getD [],
        isObjVal (argsJsonOf tc) = true) :
    ∃ s2, processIter tools exec it resp s = Except.ok (StepRes.cont s2) ∧
      s2.messages = (s.messages ++ [removeEmptyToolCalls resp.message]) ++
        ((removeEmptyToolCalls resp.message).toolCalls.getD []).map (toolMsgOf exec) ∧
      s2.calls = s.calls ++
        ((removeEmptyToolCalls resp.message).toolCalls.getD []).map (callRecordOf exec) ∧
      (((removeEmptyToolCalls resp.message).toolCalls.getD []).map (toolMsgOf exec)).length =
        ((removeEmptyToolCalls resp.message).toolCalls.getD []).length ∧
      ∀ m ∈ ((removeEmptyToolCalls resp.message).toolCalls.getD []).map (toolMsgOf exec),
        m.role = Role.tool := by
  refine ⟨_, processIter_native_toolCalls tools exec it resp s hTC hLen hArgs,
    rfl, rfl, List.length_map _ _, ?_⟩
  intro m hm
  obtain ⟨tc, _, rfl⟩ := List.mem_map.mp hm
  rfl

/-- Witness for the amended C2 at finish_reason=stop with two queued calls. -/
theorem c2_witness :
    ∃ s2, processIter [] okExec 1 c2wResp (initTurnState [] []) = Except.ok (StepRes.cont s2) ∧
      s2.messages = (((initTurnState [] []).messages ++ [removeEmptyToolCalls c2wResp.message]) ++
        ((removeEmptyToolCalls c2wResp.message).toolCalls.getD []).map (toolMsgOf okExec)) ∧
      s2.calls = (initTurnState [] []).calls ++
        ((removeEmptyToolCalls c2wResp.message).toolCalls.getD []).map (callRecordOf okExec) ∧
      (((removeEmptyToolCalls c2wResp.message).toolCalls.getD []).map (toolMsgOf okExec)).length =
        ((removeEmptyToolCalls c2wResp.message).toolCalls.getD []).length ∧
      ∀ m ∈ ((removeEmptyToolCalls c2wResp.message).toolCalls.getD []).map (toolMsgOf okExec),
        m.role = Role.tool :=
  c2_tool_calls_executed_in_order_unless_length [] okExec 1 c2wResp (initTurnState [] [])
    (by decide) (by decide) (by decide)

/-- Claim C4: an exception raised by the tool-execution collaborator on the
second of three queued calls is converted by the invoker into an error dict
embedding the exception message; the loop still appends one tool message per
call (the second carrying the error text), the third call still reaches the
collaborator, and the turn continues instead of aborting. -/
theorem c4_tool_exception_recovered_and_remaining_calls_run
    (tools : List String) (exec : Executor) (it : Nat) (resp : Resp) (s : TurnState)
    (t1 t2 t3 : ToolCall) (k1 k2 k3 : JsonObj) (e : String)
    (hTCs : resp.message.toolCalls = some [t1, t2, t3])
    (hLen : resp.finishReason ≠ "length")
    (h1 : argsJsonOf t1 = Json.obj k1) (h2 : argsJsonOf t2 = Json.obj k2)
    (h3 : argsJsonOf t3 = Json.obj k3)
    (hRaise : exec t2.name (cleanToolArguments k2) = ExecResult.raises e) :
    ∃ s2, processIter tools exec it resp s = Except.ok (StepRes.cont s2) ∧
      s2.messages = (s.messages ++ [resp.message]) ++
        [toolMsgOf exec t1, toolMsgOf exec t2, toolMsgOf exec t3] ∧
      toolMsgOf exec t2 =
        { role := Role.tool
          content := some (jsonDump (toolErrorResult t2.name e))
          toolCallId := some t2.id
          name := some t2.name } ∧
      s2.calls = s.calls ++
        [(t1.name, cleanToolArguments k1), (t2.name, cleanToolArguments k2),
         (t3.name, cleanToolArguments k3)] := by
  have hne : resp.message.toolCalls ≠ some [] := by rw [hTCs]; simp
  have hrm : removeEmptyToolCalls resp.message = resp.message := by
    rw [removeEmptyToolCalls, if_neg hne]
  have hTC : msgHasToolCalls (removeEmptyToolCalls resp.message) = true := by
    rw [hrm, msgHasToolCalls, hTCs]
  have hgetD : (removeEmptyToolCalls resp.message).toolCalls.getD [] = [t1, t2, t3] := by
    rw [hrm, hTCs]; rfl
  have hArgs : ∀ tc ∈ (removeEmptyToolCalls resp.message).toolCalls.getD [],
      isObjVal (argsJsonOf tc) = true := by
    rw [hgetD]
    intro tc htc
    simp only [List.mem_cons, List.not_mem_nil, or_false] at htc
    rcases htc with rfl | rfl | rfl
    · rw [h1]; rfl
    · rw [h2]; rfl
    · rw [h3]; rfl
  refine ⟨_, processIter_native_toolCalls tools exec it resp s hTC hLen hArgs, ?_, ?_, ?_⟩
  · dsimp only
    rw [hgetD, hrm]
    rfl
  · exact toolMsgOf_raises exec t2 k2 e h2 hRaise
  · dsimp only
    rw [hgetD]
    simp only [List.map_cons, List.map_nil,
      callRecordOf_eq exec t1 k1 h1, callRecordOf_eq exec t2 k2 h2, callRecordOf_eq exec t3 k3 h3]

/-- Witness for C4: executor beta raises "boom" between alpha and gamma. -/
theorem c4_witness :
    ∃ s2, processIter [] c4Exec 1 c4Resp (initTurnState [] []) = Except.ok (StepRes.cont s2) ∧
      s2.messages = (((initTurnState [] []).messages ++ [c4Resp.message]) ++
        [toolMsgOf c4Exec c4CallA, toolMsgOf c4Exec c4CallB, toolMsgOf c4Exec c4CallC]) ∧
      toolMsgOf c4Exec c4CallB =
        { role := Role.tool
          content := some (jsonDump (toolErrorResult c4CallB.name "boom"))
          toolCallId := some c4CallB.id
          name := some c4CallB.name } ∧
      s2.calls = (initTurnState [] []).calls ++
        [(c4CallA.name, cleanToolArguments JsonObj.nil),
         (c4CallB.name, cleanToolArguments JsonObj.nil),
         (c4CallC.name, cleanToolArguments (JsonObj.cons ("n") (Json.num ("1")) JsonObj.nil))] :=
  c4_tool_exception_recovered_and_remaining_calls_run [] c4Exec 1 c4Resp (initTurnState [] [])
    c4CallA c4CallB c4CallC JsonObj.nil JsonObj.nil
    (JsonObj.cons ("n") (Json.num ("1")) JsonObj.nil) "boom"
    rfl (by decide) rfl rfl rfl rfl

/-- Claim C1: when the assistant response carries no tool_calls (absent or
empty) but its content holds a recognizable tool-call JSON object and the
backend reports finish_reason=stop, the iteration synthesizes a tool_calls
entry on the stored assistant message, clears the candidate final answer,
executes the recovered tool through the collaborator, appends its tool
message, and continues the loop instead of returning the JSON text. -/
theorem c1_content_tool_call_recovered_and_executed
    (tools : List String) (exec : Executor) (it : Nat) (resp : Resp) (s : TurnState)
    (p : ParsedCall) (kvs : JsonObj)
    (hEmpty : resp.message.toolCalls = none ∨ resp.message.toolCalls = some [])
    (hParse : parseToolCallFromContent tools (resp.message.content.getD "") = some p)
    (hStop : resp.finishReason = "stop")
    (hObj : p.arguments = Json.obj kvs)
    (hRT : jsonParse (jsonDump (Json.obj kvs)) = some (Json.obj kvs)) :
    processIter tools exec it resp s = Except.ok (StepRes.cont
      { messages := (s.messages ++
          [{ removeEmptyToolCalls resp.message with toolCalls := some [synthToolCall it p] }]) ++
          [toolMsgOf exec (synthToolCall it p)]
        working := (s.working ++
          [{ removeEmptyToolCalls resp.message with toolCalls := some [synthToolCall it p] }]) ++
          [toolMsgOf exec (synthToolCall it p)]
        finalResponse := none
        calls := s.calls ++ [(p.name, cleanToolArguments kvs)]
        requests := s.requests }) ∧
    (toolMsgOf exec (synthToolCall it p)).role = Role.tool ∧
    (toolMsgOf exec (synthToolCall it p)).name = some p.name := by
  have hAmTc : (removeEmptyToolCalls resp.message).toolCalls = none := by
    rcases hEmpty with h | h
    · rw [removeEmptyToolCalls, if_neg (by simp [h])]
      exact h
    · rw [removeEmptyToolCalls, if_pos h]
  have hTCf : msgHasToolCalls (removeEmptyToolCalls resp.message) = false := by
    simp [msgHasToolCalls, hAmTc]
  have hContent : (removeEmptyToolCalls resp.message).content = resp.message.content :=
    content_removeEmpty resp.message
  have hne : resp.message.content.getD "" ≠ "" := parse_some_ne_empty tools _ p hParse
  have hSynthArgs : argsJsonOf (synthToolCall it p) = Json.obj kvs := by
    simp only [argsJsonOf, synthToolCall, hObj, hRT]
  have hRun : runToolCalls exec [synthToolCall it p] =
      Except.ok ([toolMsgOf exec (synthToolCall it p)], [callRecordOf exec (synthToolCall it p)]) := by
    apply runToolCalls_map
    intro tc htc
    simp only [List.mem_singleton] at htc
    subst htc
    rw [hSynthArgs]
    rfl
  have hRec : callRecordOf exec (synthToolCall it p) = (p.name, cleanToolArguments kvs) :=
    callRecordOf_eq exec _ kvs hSynthArgs
  have hSL : ("stop" : String) ≠ "length" := by decide
  refine ⟨?_, rfl, rfl⟩
  rw [processIter]
  simp only [hTCf, hContent, hne, hAmTc, hStop, hParse, hRun, hRec, hSL,
    Option.getD_none, Option.getD_some, List.nil_append, dropLast_append_single,
    if_true, if_false, ite_true, ite_false, Bool.false_eq_true,
    msgHasToolCalls]

/-- Witness for C1: content with leading prose and an embedded nod_head call,
finish_reason stop, empty tool_calls. -/
theorem c1_witness :
    processIter c1Tools okExec 1 c1Resp (initTurnState [] []) = Except.ok (StepRes.cont
      { messages := ((initTurnState [] []).messages ++
          [{ removeEmptyToolCalls c1Resp.message with
               toolCalls := some [synthToolCall 1 ⟨"nod_head", Json.obj c1Params⟩] }]) ++
          [toolMsgOf okExec (synthToolCall 1 ⟨"nod_head", Json.obj c1Params⟩)]
        working := ((initTurnState [] []).working ++
          [{ removeEmptyToolCalls c1Resp.message with
               toolCalls := some [synthToolCall 1 ⟨"nod_head", Json.obj c1Params⟩] }]) ++
          [toolMsgOf okExec (synthToolCall 1 ⟨"nod_head", Json.obj c1Params⟩)]
        finalResponse := none
        calls := (initTurnState [] []).calls ++ [("nod_head", cleanToolArguments c1Params)]
        requests := (initTurnState [] []).requests }) ∧
    (toolMsgOf okExec (synthToolCall 1 ⟨"nod_head", Json.obj c1Params⟩)).role = Role.tool ∧
    (toolMsgOf okExec (synthToolCall 1 ⟨"nod_head", Json.obj c1Params⟩)).name =
      some ("nod_head") :=
  c1_content_tool_call_recovered_and_executed c1Tools okExec 1 c1Resp (initTurnState [] [])
    ⟨"nod_head", Json.obj c1Params⟩ c1Params (Or.inl rfl) rfl rfl rfl rfl

end ReachyChat
